import Mathlib

/-!
Verification of the Quirk simulation-statistics core against its specification.

The development shallowly embeds the JavaScript sources:
  * `Controls` (src/circuit/Controls.js): bitmask predicates over basis states.
  * `CircuitStats` (src/circuit/CircuitStats.js): the immutable statistics
    snapshot and its query surface.
JavaScript 32-bit masks are modelled as `Nat` values below `2 ^ 32`; the JS
bitwise complement `~x` (applied to such a mask) is modelled as XOR against
`2 ^ 32 - 1`.  Fallible operations (JS `throw`) are modelled with `Except`.
-/

/-- Bitwise complement of a 32-bit mask, modelling the JavaScript `~` operator
restricted to the 32-bit patterns that mask values actually occupy. -/
def bnot32 (x : Nat) : Nat := x ^^^ (2 ^ 32 - 1)

/-- Embeds class `Controls` (src/circuit/Controls.js lines 10-25): a set of
requirements that a state's bits must meet, as two masks. -/
structure Controls where
  inclusionMask : Nat
  desiredValueMask : Nat
deriving DecidableEq

/-- Errors thrown by the Controls operations (`DetailedError` messages in the
source: constructor rejection, negative bit index, contradictory merge). -/
inductive ControlsError where
  | desiredUnincludedBits
  | outOfRange
  | contradictoryControls
deriving DecidableEq

/-- The constructor invariant checked at src/circuit/Controls.js line 18:
no desired bit outside the inclusion mask. -/
def Controls.valid (c : Controls) : Prop :=
  c.desiredValueMask &&& bnot32 c.inclusionMask = 0

instance (c : Controls) : Decidable c.valid := by
  unfold Controls.valid; infer_instance

/-- Well-formedness of a reachable Controls value: both masks are 32-bit
patterns (as every JavaScript bitwise-operation result is) and the
constructor invariant holds. -/
def Controls.wf (c : Controls) : Prop :=
  c.inclusionMask < 2 ^ 32 ∧ c.desiredValueMask < 2 ^ 32 ∧ c.valid

instance (c : Controls) : Decidable c.wf := by
  unfold Controls.wf; exact instDecidableAnd

/-- Embeds the `Controls` constructor (src/circuit/Controls.js lines 17-25):
throws `DetailedError("Desired un-included bits")` when the invariant fails,
otherwise stores the two masks. -/
def Controls.make (inclusionMask desiredValueMask : Nat) : Except ControlsError Controls :=
  if desiredValueMask &&& bnot32 inclusionMask ≠ 0 then
    .error .desiredUnincludedBits
  else
    .ok ⟨inclusionMask, desiredValueMask⟩

/-- Embeds `Controls.NONE` (src/circuit/Controls.js line 109). -/
def Controls.NONE : Controls := ⟨0, 0⟩

/-- Embeds `Controls.bit` (src/circuit/Controls.js lines 32-37): throws on a
negative index, otherwise requires the single bit `bitIndex` to hold
`desiredValue`.  The JavaScript `<<` operator shifts by the index mod 32. -/
def Controls.bit (bitIndex : Int) (desiredValue : Bool) : Except ControlsError Controls :=
  if bitIndex < 0 then .error .outOfRange
  else
    Controls.make (1 <<< (bitIndex.toNat % 32))
      (if desiredValue then 1 <<< (bitIndex.toNat % 32) else 0)

/-- Embeds `Controls.allowsState` (src/circuit/Controls.js lines 69-71). -/
def Controls.allowsState (c : Controls) (stateIndex : Nat) : Bool :=
  (c.inclusionMask &&& stateIndex) == c.desiredValueMask

/-- Embeds `Controls.and` (src/circuit/Controls.js lines 98-105): throws
`DetailedError("Contradictory controls.")` when the two sets disagree on a
shared bit, otherwise constructs the union of the requirements. -/
def Controls.and (a other : Controls) : Except ControlsError Controls :=
  if (other.desiredValueMask &&& a.inclusionMask) ≠ (a.desiredValueMask &&& other.inclusionMask) then
    .error .contradictoryControls
  else
    Controls.make (a.inclusionMask ||| other.inclusionMask)
      (a.desiredValueMask ||| other.desiredValueMask)

/-- A mask below `2 ^ 32` shares no bit with its 32-bit complement. -/
theorem land_bnot32_self {x : Nat} (hx : x < 2 ^ 32) : x &&& bnot32 x = 0 := by
  apply Nat.eq_of_testBit_eq
  intro i
  simp only [Nat.testBit_and, bnot32, Nat.testBit_xor, Nat.testBit_two_pow_sub_one,
    Nat.zero_testBit]
  by_cases hi : i < 32
  · simp only [hi, decide_True]
    cases x.testBit i <;> simp
  · have hb : x.testBit i = false :=
      Nat.testBit_lt_two_pow
        (lt_of_lt_of_le hx (Nat.pow_le_pow_right (by norm_num) (le_of_not_lt hi)))
    simp [hb]

/-- Under well-formedness, every desired bit is an included bit. -/
theorem Controls.wf_dvm_subset_im {c : Controls} (h : c.wf) (i : Nat)
    (hd : c.desiredValueMask.testBit i = true) : c.inclusionMask.testBit i = true := by
  obtain ⟨-, hdv, hv⟩ := h
  by_cases hi : i < 32
  · have hv' : c.desiredValueMask &&& bnot32 c.inclusionMask = 0 := hv
    have h0 := congrArg (fun n => Nat.testBit n i) hv'
    simp only [Nat.testBit_and, bnot32, Nat.testBit_xor, Nat.testBit_two_pow_sub_one,
      Nat.zero_testBit, hd, hi, decide_True, Bool.true_and] at h0
    cases him : c.inclusionMask.testBit i with
    | true => rfl
    | false => rw [him] at h0; simp at h0
  · exact absurd hd (by
      simp [Nat.testBit_lt_two_pow
        (lt_of_lt_of_le hdv (Nat.pow_le_pow_right (by norm_num) (le_of_not_lt hi)))])

/-- Per-bit boolean core of the conjunction law for control masks. -/
theorem controls_and_bit_core : ∀ ai bi ad bd si : Bool,
    (ad = true → ai = true) → (bd = true → bi = true) → ((bd && ai) = (ad && bi)) →
    ((((ai || bi) && si) = (ad || bd)) ↔ (((ai && si) = ad) ∧ ((bi && si) = bd))) := by
  decide

/-- An `and` that succeeds passed the contradiction check and returned the
union of the two mask pairs. -/
theorem Controls.and_ok_elim {a b c : Controls} (h : a.and b = .ok c) :
    (b.desiredValueMask &&& a.inclusionMask = a.desiredValueMask &&& b.inclusionMask) ∧
    c = ⟨a.inclusionMask ||| b.inclusionMask, a.desiredValueMask ||| b.desiredValueMask⟩ := by
  unfold Controls.and at h
  split at h
  · simp at h
  · next hc =>
    unfold Controls.make at h
    split at h
    · simp at h
    · injection h with h
      exact ⟨of_not_not hc, h.symm⟩

/-- A successful `Controls.make` result satisfies the constructor invariant. -/
theorem Controls.make_ok_valid {im dvm : Nat} {c : Controls}
    (h : Controls.make im dvm = .ok c) : c.valid := by
  unfold Controls.make at h
  split at h
  · simp at h
  · next hcheck =>
    injection h with h
    subst h
    exact of_not_not hcheck

/-- C2: for all well-formed Controls values `a` and `b` such that `a.and b`
succeeds, and for every basis index `s`, the merged control set allows `s`
exactly when both `a` and `b` allow `s`. -/
theorem Controls.and_allowsState (a b : Controls) (ha : a.wf) (hb : b.wf)
    (c : Controls) (hok : a.and b = .ok c) (s : Nat) :
    c.allowsState s = (a.allowsState s && b.allowsState s) := by
  obtain ⟨hnc, rfl⟩ := Controls.and_ok_elim hok
  have hbit : ∀ i, (b.desiredValueMask.testBit i && a.inclusionMask.testBit i)
      = (a.desiredValueMask.testBit i && b.inclusionMask.testBit i) := by
    intro i
    have h := congrArg (fun n => Nat.testBit n i) hnc
    simpa [Nat.testBit_and] using h
  have key : ∀ i,
      (((a.inclusionMask.testBit i || b.inclusionMask.testBit i) && Nat.testBit s i)
        = (a.desiredValueMask.testBit i || b.desiredValueMask.testBit i))
      ↔ (((a.inclusionMask.testBit i && Nat.testBit s i) = a.desiredValueMask.testBit i)
        ∧ ((b.inclusionMask.testBit i && Nat.testBit s i) = b.desiredValueMask.testBit i)) :=
    fun i => controls_and_bit_core _ _ _ _ _
      (Controls.wf_dvm_subset_im ha i) (Controls.wf_dvm_subset_im hb i) (hbit i)
  have main :
      ((a.inclusionMask ||| b.inclusionMask) &&& s
        = (a.desiredValueMask ||| b.desiredValueMask))
      ↔ ((a.inclusionMask &&& s = a.desiredValueMask)
        ∧ (b.inclusionMask &&& s = b.desiredValueMask)) := by
    constructor
    · intro h
      have hper : ∀ i,
          ((a.inclusionMask.testBit i && Nat.testBit s i) = a.desiredValueMask.testBit i)
          ∧ ((b.inclusionMask.testBit i && Nat.testBit s i) = b.desiredValueMask.testBit i) := by
        intro i
        apply (key i).mp
        have h' := congrArg (fun n => Nat.testBit n i) h
        simpa [Nat.testBit_and, Nat.testBit_or] using h'
      constructor
      · apply Nat.eq_of_testBit_eq
        intro i
        simpa [Nat.testBit_and] using (hper i).1
      · apply Nat.eq_of_testBit_eq
        intro i
        simpa [Nat.testBit_and] using (hper i).2
    · rintro ⟨h1, h2⟩
      apply Nat.eq_of_testBit_eq
      intro i
      have e1 := congrArg (fun n => Nat.testBit n i) h1
      have e2 := congrArg (fun n => Nat.testBit n i) h2
      simp only [Nat.testBit_and] at e1 e2
      simpa [Nat.testBit_and, Nat.testBit_or] using (key i).mpr ⟨e1, e2⟩
  simp only [Controls.allowsState]
  rw [Bool.eq_iff_iff]
  simp only [Bool.and_eq_true, beq_iff_eq]
  exact main

/-- C2 witness: a concrete instance of the conjunction law. -/
theorem Controls.and_allowsState_witness :
    Controls.allowsState ⟨3, 1⟩ 5 = (Controls.allowsState ⟨1, 1⟩ 5 && Controls.allowsState ⟨2, 0⟩ 5) :=
  Controls.and_allowsState ⟨1, 1⟩ ⟨2, 0⟩ (by decide) (by decide) ⟨3, 1⟩ (by rfl) 5

/-- C3: `a.and b` fails with the contradiction error exactly when
`b.desiredValueMask &&& a.inclusionMask` differs from
`a.desiredValueMask &&& b.inclusionMask`; on success the result carries the
bitwise OR of the inclusion masks and of the desired-value masks. -/
theorem Controls.and_contradiction_iff (a b : Controls) :
    (a.and b = .error .contradictoryControls ↔
      b.desiredValueMask &&& a.inclusionMask ≠ a.desiredValueMask &&& b.inclusionMask)
    ∧ (∀ c, a.and b = .ok c →
        c.inclusionMask = a.inclusionMask ||| b.inclusionMask ∧
        c.desiredValueMask = a.desiredValueMask ||| b.desiredValueMask) := by
  constructor
  · constructor
    · intro h
      unfold Controls.and at h
      split at h
      · next hc => exact hc
      · unfold Controls.make at h
        split at h
        · simp at h
        · simp at h
    · intro hne
      unfold Controls.and
      rw [if_pos hne]
  · intro c h
    obtain ⟨-, rfl⟩ := Controls.and_ok_elim h
    exact ⟨rfl, rfl⟩

/-- C3 witness: the successful branch at a concrete non-contradictory pair. -/
theorem Controls.and_contradiction_iff_witness :
    (Controls.mk 3 1).inclusionMask = 1 ||| 2 ∧
    (Controls.mk 3 1).desiredValueMask = 1 ||| 0 :=
  (Controls.and_contradiction_iff ⟨1, 1⟩ ⟨2, 0⟩).2 ⟨3, 1⟩ (by rfl)

/-- C4: `Controls.NONE` is a two-sided identity for `and` on every Controls
value satisfying the constructor invariant. -/
theorem Controls.NONE_and_identity (c : Controls) (h : c.valid) :
    c.and Controls.NONE = .ok c ∧ Controls.NONE.and c = .ok c := by
  have h' : c.desiredValueMask &&& bnot32 c.inclusionMask = 0 := h
  constructor
  · unfold Controls.and Controls.NONE Controls.make
    simp [Nat.zero_and, Nat.and_zero, Nat.or_zero, h']
  · unfold Controls.and Controls.NONE Controls.make
    simp [Nat.zero_and, Nat.and_zero, Nat.zero_or, h']

/-- C4 witness: the identity law at a concrete control set. -/
theorem Controls.NONE_and_identity_witness :
    Controls.and ⟨5, 4⟩ Controls.NONE = .ok ⟨5, 4⟩ ∧
    Controls.NONE.and ⟨5, 4⟩ = .ok ⟨5, 4⟩ :=
  Controls.NONE_and_identity ⟨5, 4⟩ (by decide)

/-- C5: the constructor rejects any mask pair violating the invariant,
`Controls.bit` always succeeds on a nonnegative index with a valid result,
and `and` on two valid values only ever returns valid values. -/
theorem Controls.invariant_preserved :
    (∀ im dvm : Nat, dvm &&& bnot32 im ≠ 0 →
      Controls.make im dvm = .error .desiredUnincludedBits)
    ∧ (∀ (i : Int) (v : Bool), 0 ≤ i → ∃ c, Controls.bit i v = .ok c ∧ c.valid)
    ∧ (∀ a b c : Controls, a.valid → b.valid → a.and b = .ok c → c.valid) := by
  refine ⟨?_, ?_, ?_⟩
  · intro im dvm h
    unfold Controls.make
    rw [if_pos h]
  · intro i v hi
    have hk : i.toNat % 32 < 32 := Nat.mod_lt _ (by norm_num)
    have hlt : 1 <<< (i.toNat % 32) < 2 ^ 32 := by
      rw [Nat.one_shiftLeft]
      exact Nat.pow_lt_pow_right (by norm_num) hk
    have hself : (1 <<< (i.toNat % 32)) &&& bnot32 (1 <<< (i.toNat % 32)) = 0 :=
      land_bnot32_self hlt
    unfold Controls.bit Controls.make
    rw [if_neg (not_lt.mpr hi)]
    cases v with
    | true =>
      refine ⟨⟨1 <<< (i.toNat % 32), 1 <<< (i.toNat % 32)⟩, ?_, ?_⟩
      · simp [hself]
      · exact hself
    | false =>
      refine ⟨⟨1 <<< (i.toNat % 32), 0⟩, ?_, ?_⟩
      · simp [Nat.zero_and]
      · exact Nat.zero_and _
  · intro a b c _ _ h
    unfold Controls.and at h
    split at h
    · simp at h
    · exact Controls.make_ok_valid h

/-- C5 witness: `Controls.bit` at a concrete index yields a valid value. -/
theorem Controls.invariant_preserved_witness :
    ∃ c, Controls.bit 3 true = .ok c ∧ c.valid :=
  Controls.invariant_preserved.2.1 3 true (by decide)

/-- Scalar of the embedding: a JavaScript floating-point number restricted to
the values the claims touch, a rational value or the `NaN` produced on the
failure paths.  `NaN` is absorbing for multiplication, as in IEEE floats. -/
inductive JSNum where
  | nan : JSNum
  | val : ℚ → JSNum
deriving DecidableEq

instance : Inhabited JSNum := ⟨.val 0⟩

/-- Multiplication on the scalar type; `NaN` propagates through products. -/
def JSNum.mul : JSNum → JSNum → JSNum
  | .nan, _ => .nan
  | _, .nan => .nan
  | .val a, .val b => .val (a * b)

/-- Modelled from the spec: class `QMatrix` of src/math/Matrix.js is not under
src/, so only the surface the statistics code uses is reproduced — a width, a
height and a raw buffer of interleaved real/imaginary scalars, with
`width * height * 2` entries for a well-formed matrix. -/
structure QMatrix where
  width : Nat
  height : Nat
  buffer : Array JSNum
deriving DecidableEq

instance : Inhabited QMatrix := ⟨⟨0, 0, #[]⟩⟩

/-- Embeds `QMatrix.rawBuffer()`: the interleaved real/imaginary buffer. -/
def QMatrix.rawBuffer (m : QMatrix) : Array JSNum := m.buffer

/-- Modelled from the spec: `QMatrix.zero(w, h)` of the missing src/math/Matrix.js,
the w-by-h matrix whose buffer holds only zero scalars. -/
def QMatrix.zero (w h : Nat) : QMatrix := ⟨w, h, Array.mkArray (w * h * 2) (.val 0)⟩

/-- Modelled from the spec: `QMatrix.times(scalar)` of the missing
src/math/Matrix.js, scaling every buffer entry. -/
def QMatrix.times (m : QMatrix) (s : JSNum) : QMatrix :=
  ⟨m.width, m.height, m.buffer.map (fun x => x.mul s)⟩

/-- Real part of entry (r, c) under the interleaved row-major buffer layout. -/
def QMatrix.entryRe (m : QMatrix) (r c : Nat) : JSNum :=
  m.buffer.getD ((r * m.width + c) * 2) default

/-- Imaginary part of entry (r, c) under the interleaved row-major layout. -/
def QMatrix.entryIm (m : QMatrix) (r c : Nat) : JSNum :=
  m.buffer.getD ((r * m.width + c) * 2 + 1) default

/-- Modelled from the spec: `CircuitDefinition` of the missing
src/circuit/CircuitDefinition.js, reduced to the only field the statistics
query surface reads, its wire count. -/
structure CircuitDefinition where
  numWires : Nat
deriving DecidableEq

/-- Errors thrown by the CircuitStats query surface. -/
inductive StatsError where
  | badWireIndex
deriving DecidableEq

/-- Embeds class `CircuitStats` (src/circuit/CircuitStats.js lines 17-64): the
immutable statistics snapshot.  Custom-stat payloads are opaque to the
snapshot, so the structure is polymorphic in their type; JS arrays are lists
and the JS `Map` keyed by "col:row" strings is an association list. -/
structure CircuitStats (κ : Type) where
  circuitDefinition : CircuitDefinition
  time : JSNum
  qubitDensities : List (List QMatrix)
  finalState : QMatrix
  postSelectionSurvivalRate : JSNum
  customStatsProcessed : List (String × κ)

/-- Embeds `CircuitStats.qubitDensityMatrix` (src/circuit/CircuitStats.js
lines 75-92): throws on a negative wire index; answers the all-zero-qubit
density for a pre-circuit column or an out-of-range wire; otherwise clamps
the column index to the last computed column and looks the slot up, with a
NaN matrix for slots outside the stored data. -/
def CircuitStats.qubitDensityMatrix {κ : Type} (s : CircuitStats κ)
    (wireIndex colIndex : Int) : Except StatsError QMatrix :=
  if wireIndex < 0 then .error .badWireIndex
  else if colIndex < 0 ∨ (s.circuitDefinition.numWires : Int) ≤ wireIndex then
    .ok ⟨2, 2, (Array.mkArray 8 (JSNum.val 0)).setD 0 (JSNum.val 1)⟩
  else
    let col : Int := min colIndex ((s.qubitDensities.length : Int) - 1)
    if col < 0 ∨ (((s.qubitDensities.getD col.toNat []).length : Int) ≤ wireIndex) then
      .ok ((QMatrix.zero 2 2).times .nan)
    else
      .ok ((s.qubitDensities.getD col.toNat []).getD wireIndex.toNat default)

/-- Embeds `CircuitStats.controlledWireProbabilityJustAfter`
(src/circuit/CircuitStats.js lines 113-115): element 6 of the raw buffer of
the density matrix for that slot. -/
def CircuitStats.controlledWireProbabilityJustAfter {κ : Type} (s : CircuitStats κ)
    (wireIndex colIndex : Int) : Except StatsError JSNum :=
  (s.qubitDensityMatrix wireIndex colIndex).map (fun m => m.rawBuffer.getD 6 default)

/-- Embeds `CircuitStats.withTime` (src/circuit/CircuitStats.js lines 121-129):
rebuilds the snapshot with a new time and every other field passed through. -/
def CircuitStats.withTime {κ : Type} (s : CircuitStats κ) (time : JSNum) : CircuitStats κ :=
  ⟨s.circuitDefinition, time, s.qubitDensities, s.finalState,
    s.postSelectionSurvivalRate, s.customStatsProcessed⟩

/-- Embeds `CircuitStats.fromCircuitAtTime` (src/circuit/CircuitStats.js lines
136-152).  The inner `_fromCircuitAtTime_noFallback` computation depends on
the GPU texture layer (src/circuit/CircuitTextures.js, not under src/), so it
is abstracted as a fallible argument; the catch branch is embedded exactly:
a snapshot with no densities, an all-NaN final column vector over
`1 <<< numWires` amplitudes, a NaN survival rate and an empty custom-stat
map, tagged with the original circuit definition and time.  The side-channel
diagnostic notification has no effect on the returned value and is omitted. -/
def CircuitStats.fromCircuitAtTime {κ ε : Type}
    (noFallback : CircuitDefinition → JSNum → Except ε (CircuitStats κ))
    (circuitDefinition : CircuitDefinition) (time : JSNum) : CircuitStats κ :=
  match noFallback circuitDefinition time with
  | .ok stats => stats
  | .error _ =>
      ⟨circuitDefinition, time, [],
        (QMatrix.zero 1 (1 <<< circuitDefinition.numWires)).times .nan,
        .nan, []⟩

/-- Embeds the error-injection gate's custom shader
(src/src/gates/Debug_ErrorInjectionGate.js lines 10-12): it throws a
`DetailedError` on every invocation. -/
def errorInjectionGateShader (_inputTex _controlTex : Unit) (_qubit : Nat) :
    Except String QMatrix :=
  .error "Applied an Error Injection Gate"

/-- Embeds `CircuitStats.decohereMeasuredBitsInDensityMatrix`
(src/circuit/CircuitStats.js lines 160-177): returns the matrix unchanged for
a zero mask, otherwise copies the buffer and zeroes both scalar slots of every
entry whose row and column indices differ on a measured bit. -/
def CircuitStats.decohereMeasuredBitsInDensityMatrix (densityMatrix : QMatrix)
    (isMeasuredMask : Nat) : QMatrix :=
  if isMeasuredMask = 0 then densityMatrix
  else
    let n := densityMatrix.width
    ⟨n, n, Array.ofFn (fun k : Fin densityMatrix.buffer.size =>
      let p := k.val / 2
      if p < n * n ∧ ((p / n) ^^^ (p % n)) &&& isMeasuredMask ≠ 0 then JSNum.val 0
      else densityMatrix.buffer.get k)⟩

/-- Recursion core of `scatterAndDecohereDensities`: walks the rows, emitting
the NaN placeholder for undisplayed rows and consuming the next raw matrix
(tracked by `used`) for displayed ones. -/
def CircuitStats.scatterAux (rawMatrices : List QMatrix)
    (qubitSpan isMeasuredMask hasDisplayMask : Nat) :
    Nat → Nat → Nat → List QMatrix
  | 0, _, _ => []
  | remaining + 1, row, used =>
      if hasDisplayMask &&& (1 <<< row) = 0 then
        (QMatrix.zero (1 <<< qubitSpan) (1 <<< qubitSpan)).times .nan ::
          CircuitStats.scatterAux rawMatrices qubitSpan isMeasuredMask hasDisplayMask
            remaining (row + 1) used
      else
        CircuitStats.decohereMeasuredBitsInDensityMatrix
            (rawMatrices.getD used default)
            ((isMeasuredMask >>> row) &&& ((1 <<< qubitSpan) - 1)) ::
          CircuitStats.scatterAux rawMatrices qubitSpan isMeasuredMask hasDisplayMask
            remaining (row + 1) (used + 1)

/-- Embeds `CircuitStats.scatterAndDecohereDensities`
(src/circuit/CircuitStats.js lines 187-198): spreads the computed density
matrices over the `numWires - qubitSpan + 1` rows, NaN where no display asked
for the row, decohered by the row's slice of the measured mask elsewhere. -/
def CircuitStats.scatterAndDecohereDensities (rawMatrices : List QMatrix)
    (numWires qubitSpan isMeasuredMask hasDisplayMask : Nat) : List QMatrix :=
  CircuitStats.scatterAux rawMatrices qubitSpan isMeasuredMask hasDisplayMask
    ((numWires : Int) - qubitSpan + 1).toNat 0 0

/-- The degraded snapshot built by the catch branch of `fromCircuitAtTime`
(src/circuit/CircuitStats.js lines 144-151). -/
def CircuitStats.degradedSnapshot (κ : Type) (circuitDefinition : CircuitDefinition)
    (time : JSNum) : CircuitStats κ :=
  ⟨circuitDefinition, time, [],
    (QMatrix.zero 1 (1 <<< circuitDefinition.numWires)).times .nan, .nan, []⟩

/-- C9: `withTime` only swaps the time tag; every other stored field of the
snapshot is passed through unchanged, with no recomputation. -/
theorem CircuitStats.withTime_retags_only {κ : Type} (s : CircuitStats κ) (t : JSNum) :
    (s.withTime t).time = t ∧
    (s.withTime t).circuitDefinition = s.circuitDefinition ∧
    (s.withTime t).qubitDensities = s.qubitDensities ∧
    (s.withTime t).finalState = s.finalState ∧
    (s.withTime t).postSelectionSurvivalRate = s.postSelectionSurvivalRate ∧
    (s.withTime t).customStatsProcessed = s.customStatsProcessed :=
  ⟨rfl, rfl, rfl, rfl, rfl, rfl⟩

/-- C1: when the inner statistics computation fails, `fromCircuitAtTime`
returns (rather than throws) the degraded snapshot: empty density list, a
column vector of `2 ^ numWires` all-NaN amplitudes, NaN survival rate, empty
custom-stat map, with the circuit definition and time preserved. -/
theorem CircuitStats.fromCircuitAtTime_degrades {κ ε : Type}
    (noFallback : CircuitDefinition → JSNum → Except ε (CircuitStats κ))
    (cd : CircuitDefinition) (t : JSNum) (e : ε)
    (herr : noFallback cd t = .error e) :
    CircuitStats.fromCircuitAtTime noFallback cd t = CircuitStats.degradedSnapshot κ cd t ∧
    (CircuitStats.degradedSnapshot κ cd t).qubitDensities = [] ∧
    (CircuitStats.degradedSnapshot κ cd t).finalState.width = 1 ∧
    (CircuitStats.degradedSnapshot κ cd t).finalState.height = 2 ^ cd.numWires ∧
    (CircuitStats.degradedSnapshot κ cd t).finalState.buffer.size = 2 ^ cd.numWires * 2 ∧
    (∀ k, k < (CircuitStats.degradedSnapshot κ cd t).finalState.buffer.size →
      (CircuitStats.degradedSnapshot κ cd t).finalState.buffer.getD k default = .nan) ∧
    (CircuitStats.degradedSnapshot κ cd t).postSelectionSurvivalRate = .nan ∧
    (CircuitStats.degradedSnapshot κ cd t).customStatsProcessed = [] ∧
    (CircuitStats.degradedSnapshot κ cd t).circuitDefinition = cd ∧
    (CircuitStats.degradedSnapshot κ cd t).time = t := by
  refine ⟨?_, rfl, rfl, ?_, ?_, ?_, rfl, rfl, rfl, rfl⟩
  · unfold CircuitStats.fromCircuitAtTime CircuitStats.degradedSnapshot
    rw [herr]
  · simp [CircuitStats.degradedSnapshot, QMatrix.times, QMatrix.zero, Nat.one_shiftLeft]
  · simp [CircuitStats.degradedSnapshot, QMatrix.times, QMatrix.zero, Nat.one_shiftLeft]
  · intro k hk
    simp only [CircuitStats.degradedSnapshot, QMatrix.times, QMatrix.zero,
      Array.size_map, Array.size_mkArray] at hk ⊢
    rw [Array.getD, dif_pos (by simpa using hk)]
    simp [JSNum.mul]

/-- A no-fallback computation built on the error-injection gate: its shader
throws on every invocation, so the whole computation fails. -/
def errorInjectedNoFallback (cd : CircuitDefinition) (t : JSNum) :
    Except String (CircuitStats Unit) :=
  (errorInjectionGateShader () () 0).map
    (fun m => ⟨cd, t, [], m, .val 1, []⟩)

/-- C1 witness: the degraded-snapshot law at the error-injection computation. -/
theorem CircuitStats.fromCircuitAtTime_degrades_witness :
    CircuitStats.fromCircuitAtTime errorInjectedNoFallback ⟨1⟩ (.val 0)
        = CircuitStats.degradedSnapshot Unit ⟨1⟩ (.val 0) ∧
    (CircuitStats.degradedSnapshot Unit ⟨1⟩ (.val 0)).qubitDensities = [] ∧
    (CircuitStats.degradedSnapshot Unit ⟨1⟩ (.val 0)).finalState.width = 1 ∧
    (CircuitStats.degradedSnapshot Unit ⟨1⟩ (.val 0)).finalState.height = 2 ^ (1 : Nat) ∧
    (CircuitStats.degradedSnapshot Unit ⟨1⟩ (.val 0)).finalState.buffer.size = 2 ^ (1 : Nat) * 2 ∧
    (∀ k, k < (CircuitStats.degradedSnapshot Unit ⟨1⟩ (.val 0)).finalState.buffer.size →
      (CircuitStats.degradedSnapshot Unit ⟨1⟩ (.val 0)).finalState.buffer.getD k default = .nan) ∧
    (CircuitStats.degradedSnapshot Unit ⟨1⟩ (.val 0)).postSelectionSurvivalRate = .nan ∧
    (CircuitStats.degradedSnapshot Unit ⟨1⟩ (.val 0)).customStatsProcessed = [] ∧
    (CircuitStats.degradedSnapshot Unit ⟨1⟩ (.val 0)).circuitDefinition = ⟨1⟩ ∧
    (CircuitStats.degradedSnapshot Unit ⟨1⟩ (.val 0)).time = .val 0 :=
  CircuitStats.fromCircuitAtTime_degrades errorInjectedNoFallback ⟨1⟩ (.val 0)
    "Applied an Error Injection Gate" (by rfl)

/-- A concrete one-wire snapshot with a single computed density column, used
to evaluate the query-surface theorems on explicit inputs. -/
def sampleStats : CircuitStats Unit :=
  ⟨⟨1⟩, .val 0,
    [[⟨2, 2, #[.val 1, .val 0, .val 0, .val 0, .val 0, .val 0, .val 0, .val 0]⟩]],
    QMatrix.zero 1 2, .val 1, []⟩

/-- C10: a negative wire index is rejected with an error by
`qubitDensityMatrix`, while the sibling out-of-range case of a wire index at
or past `numWires` still returns a matrix normally. -/
theorem CircuitStats.qubitDensityMatrix_negative_wire_throws {κ : Type}
    (s : CircuitStats κ) (w c : Int) (hw : w < 0) :
    s.qubitDensityMatrix w c = .error .badWireIndex ∧
    (∀ w' : Int, 0 ≤ w' → (s.circuitDefinition.numWires : Int) ≤ w' →
      ∃ m, s.qubitDensityMatrix w' c = .ok m) := by
  constructor
  · unfold CircuitStats.qubitDensityMatrix
    rw [if_pos hw]
  · intro w' h0 hge
    unfold CircuitStats.qubitDensityMatrix
    rw [if_neg (not_lt.mpr h0), if_pos (Or.inr hge)]
    exact ⟨_, rfl⟩

/-- C10 witness: the throwing branch at wire index -1 of a concrete snapshot. -/
theorem CircuitStats.qubitDensityMatrix_negative_wire_throws_witness :
    sampleStats.qubitDensityMatrix (-1) 0 = .error .badWireIndex :=
  (CircuitStats.qubitDensityMatrix_negative_wire_throws sampleStats (-1) 0 (by decide)).1

/-- C7: `controlledWireProbabilityJustAfter` returns exactly the real part of
the (1,1) diagonal entry of the density matrix that `qubitDensityMatrix`
answers for the same slot, which sits at element 6 of the interleaved raw
buffer of a 2-by-2 matrix. -/
theorem CircuitStats.controlledWireProbability_reads_one_one {κ : Type}
    (s : CircuitStats κ) (w c : Int) (m : QMatrix)
    (hok : s.qubitDensityMatrix w c = .ok m) (hw : m.width = 2) :
    s.controlledWireProbabilityJustAfter w c = .ok (m.entryRe 1 1) ∧
    m.entryRe 1 1 = m.rawBuffer.getD 6 default := by
  have hidx : m.entryRe 1 1 = m.rawBuffer.getD 6 default := by
    simp [QMatrix.entryRe, QMatrix.rawBuffer, hw]
  constructor
  · unfold CircuitStats.controlledWireProbabilityJustAfter
    rw [hok, hidx]
    rfl
  · exact hidx

/-- C7 witness: the probability query at a concrete computed slot. -/
theorem CircuitStats.controlledWireProbability_reads_one_one_witness :
    sampleStats.controlledWireProbabilityJustAfter 0 0
        = .ok (QMatrix.entryRe ⟨2, 2, #[.val 1, .val 0, .val 0, .val 0, .val 0, .val 0, .val 0, .val 0]⟩ 1 1) ∧
    QMatrix.entryRe ⟨2, 2, #[.val 1, .val 0, .val 0, .val 0, .val 0, .val 0, .val 0, .val 0]⟩ 1 1
        = (QMatrix.rawBuffer ⟨2, 2, #[.val 1, .val 0, .val 0, .val 0, .val 0, .val 0, .val 0, .val 0]⟩).getD 6 default :=
  CircuitStats.controlledWireProbability_reads_one_one sampleStats 0 0
    ⟨2, 2, #[.val 1, .val 0, .val 0, .val 0, .val 0, .val 0, .val 0, .val 0]⟩ (by rfl) (by rfl)

/-- Rows of `scatterAux` whose display bit is unset hold the NaN placeholder,
independently of how many raw matrices earlier rows consumed. -/
theorem CircuitStats.scatterAux_getD_nan (raw : List QMatrix) (span mm dm : Nat) :
    ∀ (rem row used r : Nat), r < rem → dm &&& (1 <<< (row + r)) = 0 →
    (CircuitStats.scatterAux raw span mm dm rem row used).getD r default
      = (QMatrix.zero (1 <<< span) (1 <<< span)).times .nan := by
  intro rem
  induction rem with
  | zero => intro row used r hr _; exact absurd hr (Nat.not_lt_zero r)
  | succ n ih =>
    intro row used r hr hbit
    unfold CircuitStats.scatterAux
    split
    · cases r with
      | zero => rfl
      | succ r' =>
        rw [List.getD_cons_succ]
        exact ih (row + 1) used r' (Nat.lt_of_succ_lt_succ hr)
          (by rw [show row + 1 + r' = row + (r' + 1) by omega]; exact hbit)
    · next hdisp =>
      cases r with
      | zero => exact absurd (by simpa using hbit) hdisp
      | succ r' =>
        rw [List.getD_cons_succ]
        exact ih (row + 1) (used + 1) r' (Nat.lt_of_succ_lt_succ hr)
          (by rw [show row + 1 + r' = row + (r' + 1) by omega]; exact hbit)

/-- C6: with a nonnegative wire index, `qubitDensityMatrix` answers the
all-zero-qubit density `[[1,0],[0,0]]` for a negative column or a wire at or
past `numWires`; the NaN matrix when the clamped column holds no slot for the
wire; otherwise the slot stored at the column clamped to the last computed
index.  Rows that no display flagged are stored as the NaN placeholder by
`scatterAndDecohereDensities`, so un-computed (col, wire) slots inside the
stored range also read back as the NaN matrix. -/
theorem CircuitStats.qubitDensityMatrix_cases {κ : Type}
    (s : CircuitStats κ) (w c : Int) (hw : 0 ≤ w) :
    ((c < 0 ∨ (s.circuitDefinition.numWires : Int) ≤ w) →
      s.qubitDensityMatrix w c
        = .ok ⟨2, 2, (Array.mkArray 8 (JSNum.val 0)).setD 0 (JSNum.val 1)⟩)
    ∧ (¬(c < 0 ∨ (s.circuitDefinition.numWires : Int) ≤ w) →
        (min c ((s.qubitDensities.length : Int) - 1) < 0 ∨
          (((s.qubitDensities.getD (min c ((s.qubitDensities.length : Int) - 1)).toNat []).length : Int) ≤ w) →
        s.qubitDensityMatrix w c = .ok ((QMatrix.zero 2 2).times .nan)))
    ∧ (¬(c < 0 ∨ (s.circuitDefinition.numWires : Int) ≤ w) →
        ¬(min c ((s.qubitDensities.length : Int) - 1) < 0 ∨
          (((s.qubitDensities.getD (min c ((s.qubitDensities.length : Int) - 1)).toNat []).length : Int) ≤ w)) →
        s.qubitDensityMatrix w c
          = .ok ((s.qubitDensities.getD (min c ((s.qubitDensities.length : Int) - 1)).toNat []).getD
              w.toNat default))
    ∧ (∀ (raw : List QMatrix) (numWires mm dm r : Nat), r < numWires →
        dm &&& (1 <<< r) = 0 →
        (CircuitStats.scatterAndDecohereDensities raw numWires 1 mm dm).getD r default
          = (QMatrix.zero 2 2).times .nan) := by
  refine ⟨?_, ?_, ?_, ?_⟩
  · intro hcond
    unfold CircuitStats.qubitDensityMatrix
    rw [if_neg (not_lt.mpr hw), if_pos hcond]
  · intro h1 h2
    unfold CircuitStats.qubitDensityMatrix
    rw [if_neg (not_lt.mpr hw), if_neg h1]
    simp only
    rw [if_pos h2]
  · intro h1 h2
    unfold CircuitStats.qubitDensityMatrix
    rw [if_neg (not_lt.mpr hw), if_neg h1]
    simp only
    rw [if_neg h2]
  · intro raw numWires mm dm r hr hbit
    unfold CircuitStats.scatterAndDecohereDensities
    have hcount : ((numWires : Int) - 1 + 1).toNat = numWires := by omega
    simp only [Nat.cast_one]
    rw [hcount]
    exact CircuitStats.scatterAux_getD_nan raw 1 mm dm numWires 0 0 r hr
      (by simpa using hbit)

/-- C6 witness: the pre-circuit branch at a concrete snapshot. -/
theorem CircuitStats.qubitDensityMatrix_cases_witness :
    sampleStats.qubitDensityMatrix 0 (-1)
      = .ok ⟨2, 2, (Array.mkArray 8 (JSNum.val 0)).setD 0 (JSNum.val 1)⟩ :=
  (CircuitStats.qubitDensityMatrix_cases sampleStats 0 (-1) (by decide)).1 (Or.inl (by decide))

/-- An in-bounds `Array.getD` is a plain element read. -/
theorem array_getD_of_lt {α : Type} [Inhabited α] (a : Array α) (i : Nat)
    (h : i < a.size) : a.getD i default = a[i] := by
  simp [Array.getD_eq_get?, Array.getElem?_eq_getElem h]

/-- Pointwise description of the buffer written by the decoherence kernel for
a nonzero measured mask: scalar slot `k` belongs to matrix entry `k / 2`,
which is zeroed exactly when its row and column differ on a measured bit. -/
theorem CircuitStats.decohere_getD (m : QMatrix) (mask : Nat) (hm : mask ≠ 0)
    (k : Nat) (hk : k < m.buffer.size) :
    (CircuitStats.decohereMeasuredBitsInDensityMatrix m mask).buffer.getD k default
      = (if k / 2 < m.width * m.width ∧ ((k / 2 / m.width) ^^^ (k / 2 % m.width)) &&& mask ≠ 0
         then JSNum.val 0 else m.buffer.getD k default) := by
  unfold CircuitStats.decohereMeasuredBitsInDensityMatrix
  rw [if_neg hm]
  simp only
  rw [array_getD_of_lt _ k (by simpa using hk), Array.getElem_ofFn]
  split
  · rfl
  · rfl

/-- C8: the decoherence kernel zeroes exactly the matrix entries whose row and
column indices differ on a measured bit, copies every other entry, is the
identity for a zero mask, and never changes a diagonal entry. -/
theorem CircuitStats.decohere_entry_spec (m : QMatrix) (mask row col : Nat)
    (hsq : m.height = m.width) (hbuf : m.buffer.size = m.width * m.height * 2)
    (hr : row < m.width) (hc : col < m.width) :
    (mask = 0 → CircuitStats.decohereMeasuredBitsInDensityMatrix m mask = m)
    ∧ ((row ^^^ col) &&& mask ≠ 0 →
        (CircuitStats.decohereMeasuredBitsInDensityMatrix m mask).entryRe row col = .val 0 ∧
        (CircuitStats.decohereMeasuredBitsInDensityMatrix m mask).entryIm row col = .val 0)
    ∧ ((row ^^^ col) &&& mask = 0 →
        (CircuitStats.decohereMeasuredBitsInDensityMatrix m mask).entryRe row col = m.entryRe row col ∧
        (CircuitStats.decohereMeasuredBitsInDensityMatrix m mask).entryIm row col = m.entryIm row col)
    ∧ (row = col →
        (CircuitStats.decohereMeasuredBitsInDensityMatrix m mask).entryRe row col = m.entryRe row col ∧
        (CircuitStats.decohereMeasuredBitsInDensityMatrix m mask).entryIm row col = m.entryIm row col) := by
  by_cases hm : mask = 0
  · subst hm
    have hid : CircuitStats.decohereMeasuredBitsInDensityMatrix m 0 = m := by
      unfold CircuitStats.decohereMeasuredBitsInDensityMatrix
      rw [if_pos rfl]
    refine ⟨fun _ => hid, fun habs => absurd (Nat.and_zero _) habs, fun _ => ?_, fun _ => ?_⟩
    · rw [hid]; exact ⟨rfl, rfl⟩
    · rw [hid]; exact ⟨rfl, rfl⟩
  · have hn : 0 < m.width := Nat.lt_of_le_of_lt (Nat.zero_le row) hr
    have hpn : row * m.width + col < m.width * m.width := by
      calc row * m.width + col < row * m.width + m.width := by omega
        _ = (row + 1) * m.width := by ring
        _ ≤ m.width * m.width := Nat.mul_le_mul_right _ hr
    have hsize : m.buffer.size = m.width * m.width * 2 := by rw [hbuf, hsq]
    have hwidth : (CircuitStats.decohereMeasuredBitsInDensityMatrix m mask).width = m.width := by
      unfold CircuitStats.decohereMeasuredBitsInDensityMatrix
      rw [if_neg hm]
    have hdiv : ∀ b, b < 2 → ((row * m.width + col) * 2 + b) / 2 = row * m.width + col := by
      intro b hb; omega
    have hquo : (row * m.width + col) / m.width = row := by
      rw [Nat.add_comm, Nat.add_mul_div_right _ _ hn, Nat.div_eq_of_lt hc, Nat.zero_add]
    have hrem : (row * m.width + col) % m.width = col := by
      rw [Nat.add_comm, Nat.add_mul_mod_self_right, Nat.mod_eq_of_lt hc]
    have hkey : ∀ b, b < 2 →
        (CircuitStats.decohereMeasuredBitsInDensityMatrix m mask).buffer.getD
            ((row * m.width + col) * 2 + b) default
          = (if (row ^^^ col) &&& mask ≠ 0 then JSNum.val 0
             else m.buffer.getD ((row * m.width + col) * 2 + b) default) := by
      intro b hb
      have hklt : (row * m.width + col) * 2 + b < m.buffer.size := by
        rw [hsize]; omega
      rw [CircuitStats.decohere_getD m mask hm _ hklt, hdiv b hb, hquo, hrem]
      simp [hpn]
    have hkey0 :
        (CircuitStats.decohereMeasuredBitsInDensityMatrix m mask).buffer.getD
            ((row * m.width + col) * 2) default
          = (if (row ^^^ col) &&& mask ≠ 0 then JSNum.val 0
             else m.buffer.getD ((row * m.width + col) * 2) default) := by
      have h := hkey 0 (by omega)
      simpa using h
    have hkey1 :
        (CircuitStats.decohereMeasuredBitsInDensityMatrix m mask).buffer.getD
            ((row * m.width + col) * 2 + 1) default
          = (if (row ^^^ col) &&& mask ≠ 0 then JSNum.val 0
             else m.buffer.getD ((row * m.width + col) * 2 + 1) default) :=
      hkey 1 (by omega)
    have hcopy : (row ^^^ col) &&& mask = 0 →
        (CircuitStats.decohereMeasuredBitsInDensityMatrix m mask).entryRe row col
            = m.entryRe row col ∧
        (CircuitStats.decohereMeasuredBitsInDensityMatrix m mask).entryIm row col
            = m.entryIm row col := by
      intro hz
      constructor
      · simp only [QMatrix.entryRe, hwidth]
        rw [hkey0, if_neg (by simp [hz])]
      · simp only [QMatrix.entryIm, hwidth]
        rw [hkey1, if_neg (by simp [hz])]
    refine ⟨fun h0 => absurd h0 hm, ?_, hcopy, ?_⟩
    · intro hnz
      constructor
      · simp only [QMatrix.entryRe, hwidth]
        rw [hkey0, if_pos hnz]
      · simp only [QMatrix.entryIm, hwidth]
        rw [hkey1, if_pos hnz]
    · intro heq
      subst heq
      exact hcopy (by simp [Nat.xor_self, Nat.zero_and])

/-- C8 witness: the kernel at a concrete 2-by-2 matrix and mask 1 zeroes the
off-diagonal (0,1) entry. -/
theorem CircuitStats.decohere_entry_spec_witness :
    (CircuitStats.decohereMeasuredBitsInDensityMatrix
        ⟨2, 2, #[.val 1, .val 0, .val 2, .val 0, .val 3, .val 0, .val 4, .val 0]⟩ 1).entryRe 0 1
      = .val 0 ∧
    (CircuitStats.decohereMeasuredBitsInDensityMatrix
        ⟨2, 2, #[.val 1, .val 0, .val 2, .val 0, .val 3, .val 0, .val 4, .val 0]⟩ 1).entryIm 0 1
      = .val 0 :=
  (CircuitStats.decohere_entry_spec
      ⟨2, 2, #[.val 1, .val 0, .val 2, .val 0, .val 3, .val 0, .val 4, .val 0]⟩ 1 0 1
      rfl rfl (by decide) (by decide)).2.1 (by decide)
